import Mathlib

/-!
Verification of the face-attendance core logic.

This file gives a shallow embedding of the matching and session state
machine logic of the repository and proves the specification claims
against it:

* api/routes/recognize.py: cosine-similarity gallery scan
  (_parse_pgvector, _cosine_similarity, the best-match loop and the
  recognized / reported-similarity computation of the recognize route);
* FPT V/utils/faiss_utils.py: search_face over a flat L2 index;
* FPT V/streamlit_app/app.py: the AttendanceVideoProcessor lock state
  machine (recv / _update_lock_release / can_commit / mark_committed)
  and the auto-commit block of the Streamlit page;
* 01_Timekeeping.py: the parity-based CHECK_IN / CHECK_OUT toggling.

Embedding vectors are lists of rationals; the similarity computed by
_cosine_similarity is a real number (the source divides by a product of
euclidean norms, which are square roots).  Timestamps and distances in
the state machine are rationals.
-/

namespace FaceAttendance

/-- An embedding vector (numpy float vector in the source, modelled exactly
over the rationals). -/
abbrev Vec := List ℚ

/-- Dot product, as np.dot on two equal-length vectors. -/
def dot (a b : Vec) : ℚ := (List.zipWith (· * ·) a b).sum

/-- Sum of squares of the entries of a vector. -/
def sumSq (v : Vec) : ℚ := dot v v

/-- Euclidean norm np.linalg.norm(v) = sqrt of the sum of squares. -/
noncomputable def vnorm (v : Vec) : ℝ := Real.sqrt ((sumSq v : ℚ) : ℝ)

/-- api/routes/recognize.py _cosine_similarity: if the product of the two
norms is zero the function returns the sentinel -1.0, otherwise the dot
product divided by that denominator. -/
noncomputable def cosineSimilarity (a b : Vec) : ℝ :=
  if vnorm a * vnorm b = 0 then -1 else ((dot a b : ℚ) : ℝ) / (vnorm a * vnorm b)

/-- One row of the face_embeddings table as seen by the recognize route:
an employee id together with the result of _parse_pgvector on the stored
embedding column (none when the value failed to parse). -/
structure EmbeddingRow where
  employee_id : Int
  embedding : Option Vec
deriving DecidableEq

/-- The comparability filter of the best-match loop: the row is skipped
unless its embedding parsed and has the same dimension as the query. -/
def compEmb (q : Vec) (r : EmbeddingRow) : Option Vec :=
  match r.embedding with
  | none => none
  | some e => if e.length = q.length then some e else none

/-- One iteration of the best-match loop of the recognize route: skip
incomparable rows, otherwise replace the running best exactly when the new
similarity is strictly greater. -/
noncomputable def scanStep (q : Vec) (best : Option Int × ℝ) (r : EmbeddingRow) :
    Option Int × ℝ :=
  match compEmb q r with
  | none => best
  | some e =>
    if best.2 < cosineSimilarity q e then (some r.employee_id, cosineSimilarity q e) else best

/-- The whole best-match loop: best_emp_id starts at None and best_sim at
the sentinel -1.0. -/
noncomputable def scanEmbeddings (rows : List EmbeddingRow) (q : Vec) : Option Int × ℝ :=
  rows.foldl (scanStep q) (none, -1)

/-- The comparable gallery entries paired with their cosine similarity to
the query, in gallery iteration order. -/
noncomputable def compPairs (q : Vec) (rows : List EmbeddingRow) : List (Int × ℝ) :=
  rows.filterMap (fun r => (compEmb q r).map (fun e => (r.employee_id, cosineSimilarity q e)))

/-- The cosine similarities of the comparable gallery entries, in gallery
iteration order. -/
noncomputable def simsOf (q : Vec) (rows : List EmbeddingRow) : List ℝ :=
  (compPairs q rows).map Prod.snd

/-- The best-match loop restated directly on the comparable
(employee, similarity) pairs; scanEmbeddings is this fold over compPairs. -/
noncomputable def foldP (b : Option Int × ℝ) (l : List (Int × ℝ)) : Option Int × ℝ :=
  l.foldl (fun b p => if b.2 < p.2 then (some p.1, p.2) else b) b

/-- recognized = bool(best_emp_id is not None and best_sim >= threshold). -/
def Recognized (rows : List EmbeddingRow) (q : Vec) (threshold : ℝ) : Prop :=
  (scanEmbeddings rows q).1 ≠ none ∧ threshold ≤ (scanEmbeddings rows q).2

/-- The similarity value placed in the response and in the attendance log:
None when the DB returned no rows at all, otherwise best_sim when
best_sim >= -0.5 and None when best_sim < -0.5. -/
noncomputable def reportedSimilarity (rows : List EmbeddingRow) (q : Vec) : Option ℝ :=
  if rows = [] then none
  else if -(1/2 : ℝ) ≤ (scanEmbeddings rows q).2 then some (scanEmbeddings rows q).2 else none

/-- The best similarity value held by the scan (the sentinel -1.0 when no
comparable entry ever updated it). -/
noncomputable def bestSim (rows : List EmbeddingRow) (q : Vec) : ℝ :=
  (scanEmbeddings rows q).2

/-! ## FPT V/utils/faiss_utils.py: flat L2 index and search_face

faiss.IndexFlatL2 stores the gallery vectors in insertion order and its
search with k = 1 returns the squared euclidean distance to the nearest
stored vector together with its position, or the pair (FLT_MAX, -1) when
the index is empty. -/

/-- Squared L2 distance between two equal-dimension vectors, the value
faiss.IndexFlatL2 reports. -/
def sqDist (a b : Vec) : ℚ := (List.zipWith (fun x y => (x - y) ^ 2) a b).sum

/-- Largest single-precision float, the distance FAISS reports for an
empty index slot. -/
def fltMax : ℚ := 340282346638528859811704183484516925440

/-- Nearest-neighbour fold over the remaining stored vectors: keep the
current (distance, position) pair unless a strictly smaller distance
appears. -/
def nnGo (q : Vec) : (ℚ × Int) → Int → List Vec → ℚ × Int
  | best, _, [] => best
  | best, i, v :: vs =>
    nnGo q (if sqDist q v < best.1 then (sqDist q v, i) else best) (i + 1) vs

/-- index.search(q, 1) on a flat L2 index holding the listed vectors. -/
def nnSearch (index : List Vec) (q : Vec) : ℚ × Int :=
  match index with
  | [] => (fltMax, -1)
  | v :: vs => nnGo q (sqDist q v, 0) 1 vs

/-- FPT V/utils/faiss_utils.py search_face: look up the nearest stored
vector, return None when the label is out of range for the names array,
otherwise the matching name exactly when the distance is at most the
threshold. -/
def searchFace (index : List Vec) (names : List String) (q : Vec) (threshold : ℚ) :
    Option String × ℚ :=
  let res := nnSearch index q
  if res.2 < 0 ∨ (names.length : Int) ≤ res.2 then (none, res.1)
  else if res.1 ≤ threshold then (some (names.getD res.2.toNat ""), res.1)
  else (none, res.1)

/-! ## FPT V/streamlit_app/app.py: the lock state machine

RecogState mirrors the dataclass of the same name.  Timestamps and
distances are rationals.  A frame tick is the body of
AttendanceVideoProcessor.recv on a processed frame: the recognition
result (None when no face was found, otherwise the FAISS name/distance
pair) updates the shared state and then _update_lock_release runs.  A UI
tick is the auto-commit block of the Streamlit page. -/

structure RecogState where
  name : String := "Unknown"
  dist : ℚ := 999
  recognized : Bool := false
  last_seen_ts : ℚ := 0
  locked_name : Option String := none
  locked_last_seen_ts : ℚ := 0
deriving DecidableEq

/-- AttendanceVideoProcessor._update_lock_release: nothing when no lock is
held; refresh locked_last_seen_ts when the current frame recognized the
locked person; otherwise release the lock once the locked person has been
absent for unlock_sec. -/
def updateLockRelease (unlock_sec : ℚ) (now : ℚ) (s : RecogState) : RecogState :=
  match s.locked_name with
  | none => s
  | some locked =>
    if s.recognized = true ∧ s.name = locked then
      { s with locked_last_seen_ts := s.last_seen_ts }
    else if unlock_sec ≤ now - s.locked_last_seen_ts then
      { s with locked_name := none, locked_last_seen_ts := 0 }
    else s

/-- The state update of AttendanceVideoProcessor.recv on a processed
frame: no result resets name/dist/recognized (keeping last_seen_ts for
the lock timer); a result stores the name and distance, sets recognized
by comparing the distance with the threshold and stamps last_seen_ts;
then _update_lock_release runs. -/
def frameRecv (threshold unlock_sec : ℚ) (s : RecogState)
    (result : Option (String × ℚ)) (now : ℚ) : RecogState :=
  let s1 := match result with
    | none => { s with name := "Unknown", dist := 999, recognized := false }
    | some (n, d) =>
      { s with name := n, dist := d, recognized := decide (d ≤ threshold), last_seen_ts := now }
  updateLockRelease unlock_sec now s1

/-- AttendanceVideoProcessor.can_commit: always allowed when no lock is
held, otherwise only for a person other than the locked one. -/
def canCommit (s : RecogState) (n : String) : Bool :=
  match s.locked_name with
  | none => true
  | some locked => decide (n ≠ locked)

/-- AttendanceVideoProcessor.mark_committed: lock the given person,
stamping the lock with the processor's current last_seen_ts. -/
def markCommitted (s : RecogState) (n : String) : RecogState :=
  { s with locked_name := some n, locked_last_seen_ts := s.last_seen_ts }

/-- The Streamlit session bookkeeping used by the auto-commit block. -/
structure SessionState where
  last_auto_commit_ts : ℚ := 0
  last_auto_commit_name : String := ""
  mode : String := "CHECK_IN"
deriving DecidableEq

/-- An attendance log row as produced by insert_attendance_log in the
auto-commit block. -/
structure AttendanceEvent where
  name : String
  event_type : String
  time : ℚ
deriving DecidableEq

/-- Result of one run of the auto-commit block: the processor state, the
session bookkeeping, the attendance events appended to the log, and
whether an error was surfaced in the UI. -/
structure UiOutcome where
  proc : RecogState
  sess : SessionState
  events : List AttendanceEvent
  errorShown : Bool
deriving DecidableEq

/-- The auto-commit block of the Streamlit page, run against a snapshot of
the processor state: commit only when the snapshot is a fresh recognition
of a known person passing can_commit, the 1-second anti-spam gate and the
same-name-repeat gate; with the DB off an error is shown; with the DB on
the log insert is attempted (dbOk tells whether the append succeeded) and
only on success are mark_committed and the session bookkeeping performed,
a failure surfacing an error instead. -/
def uiTick (unlock_sec : ℚ) (dbOn : Bool) (p : RecogState) (sess : SessionState)
    (now : ℚ) (dbOk : Bool) : UiOutcome :=
  if p.recognized = true ∧ p.name ≠ "Unknown" then
    if (now - p.last_seen_ts ≤ 2) ∧ canCommit p p.name = true ∧
        (1 ≤ now - sess.last_auto_commit_ts) ∧
        ¬(sess.last_auto_commit_name = p.name ∧ now - sess.last_auto_commit_ts < unlock_sec) then
      if dbOn = false then ⟨p, sess, [], true⟩
      else if dbOk = true then
        ⟨markCommitted p p.name,
         { sess with last_auto_commit_ts := now, last_auto_commit_name := p.name },
         [⟨p.name, sess.mode, now⟩], false⟩
      else ⟨p, sess, [], true⟩
    else ⟨p, sess, [], false⟩
  else ⟨p, sess, [], false⟩

/-- Input of one recognition tick: the recognition result of the freshly
processed frame, the wall clock, and whether a log append attempted on
this tick would succeed. -/
structure TickInput where
  result : Option (String × ℚ)
  now : ℚ
  dbOk : Bool

/-- One recognition tick of the application: the processor handles the
frame, then the auto-commit block runs against the resulting state. -/
def fullTick (threshold unlock_sec : ℚ) (dbOn : Bool)
    (st : RecogState × SessionState) (inp : TickInput) :
    (RecogState × SessionState) × List AttendanceEvent :=
  let p1 := frameRecv threshold unlock_sec st.1 inp.result inp.now
  let o := uiTick unlock_sec dbOn p1 st.2 inp.now inp.dbOk
  ((o.proc, o.sess), o.events)

/-- Run a sequence of recognition ticks, collecting the emitted
attendance events. -/
def runTicks (threshold unlock_sec : ℚ) (dbOn : Bool) :
    RecogState × SessionState → List TickInput →
    (RecogState × SessionState) × List AttendanceEvent
  | st, [] => (st, [])
  | st, i :: is =>
    let r1 := fullTick threshold unlock_sec dbOn st i
    let r2 := runTicks threshold unlock_sec dbOn r1.1 is
    (r2.1, r1.2 ++ r2.2)

/-- Run a sequence of processed frames (result, time) through the
processor alone. -/
def runFrames (threshold unlock_sec : ℚ) :
    RecogState → List (Option (String × ℚ) × ℚ) → RecogState
  | s, [] => s
  | s, (r, t) :: rest => runFrames threshold unlock_sec (frameRecv threshold unlock_sec s r t) rest

/-- The processor state after a tick that recognized the person with the
given name at the given distance and time, with the lock stamp refreshed
to that time (the locked_name field is inherited). -/
def seenState (p : RecogState) (n : String) (d now : ℚ) : RecogState :=
  { p with name := n, dist := d, recognized := true, last_seen_ts := now,
           locked_last_seen_ts := now }

/-- The processor state right after frame processing recognized a person
while no lock was held (lock fields inherited). -/
def recogState (p : RecogState) (n : String) (d now : ℚ) : RecogState :=
  { p with name := n, dist := d, recognized := true, last_seen_ts := now }

/-- The processor state right after a frame with no recognition result
(name and distance reset, last_seen_ts and lock fields inherited). -/
def unknownState (p : RecogState) : RecogState :=
  { p with name := "Unknown", dist := 999, recognized := false }

/-! ## 01_Timekeeping.py: parity-based event-type toggling

The scan loop computes the event type from the session scan counter
before each recognize call and increments the counter only when the call
reports a successful recognition; the sidebar button resets the counter
to zero. -/

/-- One scan-loop iteration outcome (did the recognize call report a
successful recognition?) or the operator pressing the reset button. -/
inductive TkEvent where
  | scan (success : Bool)
  | resetCounter
deriving DecidableEq

/-- 01_Timekeeping.py _next_event_type_by_count: with a current counter of
scan_count, the next event is CHECK_IN when scan_count + 1 is odd and
CHECK_OUT when it is even. -/
def nextEventTypeByCount (scan_count : ℕ) : String :=
  if (scan_count + 1) % 2 = 1 then "CHECK_IN" else "CHECK_OUT"

/-- The event types carried by the successful recognitions of a run of
the scan loop, starting from the given counter value: each scan is issued
with the type computed from the current counter, and only successful
scans append to the list and advance the counter; the reset button
zeroes the counter. -/
def successEventTypes (c : ℕ) : List TkEvent → List String
  | [] => []
  | TkEvent.scan true :: r => nextEventTypeByCount c :: successEventTypes (c + 1) r
  | TkEvent.scan false :: r => successEventTypes c r
  | TkEvent.resetCounter :: r => successEventTypes 0 r

/-! ## Helper lemmas about the cosine-similarity scan -/

lemma foldP_nil (b : Option Int × ℝ) : foldP b [] = b := rfl

lemma foldP_cons (b : Option Int × ℝ) (p : Int × ℝ) (l : List (Int × ℝ)) :
    foldP b (p :: l) = foldP (if b.2 < p.2 then (some p.1, p.2) else b) l := rfl

lemma compPairs_cons_none {q : Vec} {r : EmbeddingRow} (rest : List EmbeddingRow)
    (hc : compEmb q r = none) : compPairs q (r :: rest) = compPairs q rest := by
  simp [compPairs, List.filterMap_cons, hc]

lemma compPairs_cons_some {q : Vec} {r : EmbeddingRow} {e : Vec} (rest : List EmbeddingRow)
    (hc : compEmb q r = some e) :
    compPairs q (r :: rest) = (r.employee_id, cosineSimilarity q e) :: compPairs q rest := by
  simp [compPairs, List.filterMap_cons, hc]

lemma foldl_scanStep_eq (q : Vec) :
    ∀ (rows : List EmbeddingRow) (b : Option Int × ℝ),
      rows.foldl (scanStep q) b = foldP b (compPairs q rows) := by
  intro rows
  induction rows with
  | nil => intro b; simp [compPairs, foldP]
  | cons r rest ih =>
    intro b
    cases hc : compEmb q r with
    | none =>
      rw [compPairs_cons_none rest hc, List.foldl_cons]
      have hs : scanStep q b r = b := by simp [scanStep, hc]
      rw [hs, ih]
    | some e =>
      rw [compPairs_cons_some rest hc, foldP_cons, List.foldl_cons]
      have hs : scanStep q b r =
          if b.2 < cosineSimilarity q e then (some r.employee_id, cosineSimilarity q e) else b := by
        simp [scanStep, hc]
      rw [hs, ih]

lemma scanEmbeddings_eq_foldP (rows : List EmbeddingRow) (q : Vec) :
    scanEmbeddings rows q = foldP (none, -1) (compPairs q rows) :=
  foldl_scanStep_eq q rows (none, -1)

lemma foldP_cases :
    ∀ (l : List (Int × ℝ)) (b : Option Int × ℝ),
      (foldP b l = b ∧ ∀ p ∈ l, p.2 ≤ b.2) ∨
      (∃ pre e s post, l = pre ++ (e, s) :: post ∧ foldP b l = (some e, s) ∧ b.2 < s ∧
        (∀ p ∈ pre, p.2 < s) ∧ (∀ p ∈ post, p.2 ≤ s)) := by
  intro l
  induction l with
  | nil => intro b; exact Or.inl ⟨rfl, by simp⟩
  | cons p0 t ih =>
    intro b
    by_cases h : b.2 < p0.2
    · have hstep : foldP b (p0 :: t) = foldP (some p0.1, p0.2) t := by
        rw [foldP_cons, if_pos h]
      rcases ih (some p0.1, p0.2) with ⟨heq, hall⟩ | ⟨pre, e, s, post, hl, heq, hlt, hpre, hpost⟩
      · refine Or.inr ⟨[], p0.1, p0.2, t, by simp, ?_, h, by simp, ?_⟩
        · rw [hstep, heq]
        · intro p hp; exact hall p hp
      · refine Or.inr ⟨p0 :: pre, e, s, post, by rw [hl]; rfl, ?_, ?_, ?_, hpost⟩
        · rw [hstep, heq]
        · exact lt_trans h hlt
        · intro p hp
          rcases List.mem_cons.mp hp with hp0 | hp'
          · rw [hp0]; exact hlt
          · exact hpre p hp'
    · have hstep : foldP b (p0 :: t) = foldP b t := by
        rw [foldP_cons, if_neg h]
      rcases ih b with ⟨heq, hall⟩ | ⟨pre, e, s, post, hl, heq, hlt, hpre, hpost⟩
      · refine Or.inl ⟨by rw [hstep, heq], ?_⟩
        intro p hp
        rcases List.mem_cons.mp hp with hp0 | hp'
        · rw [hp0]; exact not_lt.mp h
        · exact hall p hp'
      · refine Or.inr ⟨p0 :: pre, e, s, post, by rw [hl]; rfl, by rw [hstep, heq], hlt, ?_, hpost⟩
        intro p hp
        rcases List.mem_cons.mp hp with hp0 | hp'
        · rw [hp0]; exact lt_of_le_of_lt (not_lt.mp h) hlt
        · exact hpre p hp'

lemma mem_compPairs {q : Vec} {rows : List EmbeddingRow} {p : Int × ℝ} :
    p ∈ compPairs q rows ↔
      ∃ r ∈ rows, ∃ e, compEmb q r = some e ∧ p = (r.employee_id, cosineSimilarity q e) := by
  constructor
  · intro hp
    rcases List.mem_filterMap.mp hp with ⟨r, hr, hfr⟩
    rcases Option.map_eq_some'.mp hfr with ⟨e, he, hpe⟩
    exact ⟨r, hr, e, he, hpe.symm⟩
  · rintro ⟨r, hr, e, he, hpe⟩
    exact List.mem_filterMap.mpr ⟨r, hr, by rw [he, Option.map_some', hpe]⟩

lemma vnorm_eq {v : Vec} {x : ℚ} (hx : 0 ≤ x) (hv : sumSq v = x ^ 2) : vnorm v = (x : ℝ) := by
  rw [vnorm, hv]
  push_cast
  exact Real.sqrt_sq (by exact_mod_cast hx)

lemma vnorm_zero {v : Vec} (hv : sumSq v = 0) : vnorm v = 0 := by
  rw [vnorm, hv]
  simp

lemma cosineSimilarity_eval {a b : Vec} {x y : ℚ} (hx : 0 ≤ x) (hy : 0 ≤ y)
    (ha : sumSq a = x ^ 2) (hb : sumSq b = y ^ 2) (hxy : x * y ≠ 0) :
    cosineSimilarity a b = ((dot a b : ℚ) : ℝ) / (((x * y : ℚ) : ℝ)) := by
  rw [cosineSimilarity, vnorm_eq hx ha, vnorm_eq hy hb, if_neg (by exact_mod_cast hxy)]
  push_cast
  ring_nf

lemma cosineSimilarity_zero_left {a b : Vec} (ha : sumSq a = 0) :
    cosineSimilarity a b = -1 := by
  rw [cosineSimilarity, if_pos (by rw [vnorm_zero ha, zero_mul])]

lemma cosineSimilarity_zero_right {a b : Vec} (hb : sumSq b = 0) :
    cosineSimilarity a b = -1 := by
  rw [cosineSimilarity, if_pos (by rw [vnorm_zero hb, mul_zero])]

lemma cos_one_one : cosineSimilarity [1] [1] = 1 := by
  rw [cosineSimilarity_eval (x := 1) (y := 1) (by norm_num) (by norm_num)
    (by norm_num [sumSq, dot]) (by norm_num [sumSq, dot]) (by norm_num)]
  norm_num [dot]

lemma cos_one_negone : cosineSimilarity [1] [-1] = -1 := by
  rw [cosineSimilarity_eval (x := 1) (y := 1) (by norm_num) (by norm_num)
    (by norm_num [sumSq, dot]) (by norm_num [sumSq, dot]) (by norm_num)]
  norm_num [dot]

lemma cos_e1_neg34 : cosineSimilarity [1, 0] [-3, 4] = -(3 / 5) := by
  rw [cosineSimilarity_eval (x := 1) (y := 5) (by norm_num) (by norm_num)
    (by norm_num [sumSq, dot]) (by norm_num [sumSq, dot]) (by norm_num)]
  norm_num [dot]

/-! ## Helper lemmas about the flat L2 index -/

lemma nnGo_val (q : Vec) :
    ∀ (l : List Vec) (best : ℚ × Int) (i : Int),
      (nnGo q best i l).1 ≤ best.1 ∧
      (∀ v ∈ l, (nnGo q best i l).1 ≤ sqDist q v) ∧
      ((nnGo q best i l).1 = best.1 ∨ ∃ v ∈ l, (nnGo q best i l).1 = sqDist q v) := by
  intro l
  induction l with
  | nil => intro best i; exact ⟨le_refl _, by simp, Or.inl rfl⟩
  | cons v vs ih =>
    intro best i
    have hgo : nnGo q best i (v :: vs) =
        nnGo q (if sqDist q v < best.1 then (sqDist q v, i) else best) (i + 1) vs := rfl
    by_cases h : sqDist q v < best.1
    · rw [hgo, if_pos h]
      obtain ⟨h1, h2, h3⟩ := ih (sqDist q v, i) (i + 1)
      refine ⟨le_trans h1 (le_of_lt h), ?_, ?_⟩
      · intro w hw
        rcases List.mem_cons.mp hw with hw0 | hw'
        · rw [hw0]; exact h1
        · exact h2 w hw'
      · rcases h3 with h3 | ⟨w, hw, hval⟩
        · exact Or.inr ⟨v, List.mem_cons_self v vs, h3⟩
        · exact Or.inr ⟨w, List.mem_cons_of_mem v hw, hval⟩
    · rw [hgo, if_neg h]
      obtain ⟨h1, h2, h3⟩ := ih best (i + 1)
      refine ⟨h1, ?_, ?_⟩
      · intro w hw
        rcases List.mem_cons.mp hw with hw0 | hw'
        · rw [hw0]; exact le_trans h1 (not_lt.mp h)
        · exact h2 w hw'
      · rcases h3 with h3 | ⟨w, hw, hval⟩
        · exact Or.inl h3
        · exact Or.inr ⟨w, List.mem_cons_of_mem v hw, hval⟩

lemma nnGo_idx (q : Vec) :
    ∀ (l : List Vec) (best : ℚ × Int) (i : Int),
      (nnGo q best i l).2 = best.2 ∨
      (i ≤ (nnGo q best i l).2 ∧ (nnGo q best i l).2 < i + l.length) := by
  intro l
  induction l with
  | nil => intro best i; exact Or.inl rfl
  | cons v vs ih =>
    intro best i
    have hgo : nnGo q best i (v :: vs) =
        nnGo q (if sqDist q v < best.1 then (sqDist q v, i) else best) (i + 1) vs := rfl
    have hlen : ((v :: vs).length : Int) = (vs.length : Int) + 1 := by
      simp [List.length_cons]
    by_cases h : sqDist q v < best.1
    · rw [hgo, if_pos h]
      rcases ih (sqDist q v, i) (i + 1) with heq | ⟨hlo, hhi⟩
      · refine Or.inr ⟨?_, ?_⟩
        · rw [heq]
        · rw [heq, hlen]; omega
      · exact Or.inr ⟨by omega, by rw [hlen]; omega⟩
    · rw [hgo, if_neg h]
      rcases ih best (i + 1) with heq | ⟨hlo, hhi⟩
      · exact Or.inl heq
      · exact Or.inr ⟨by omega, by rw [hlen]; omega⟩

lemma nnSearch_nonempty_spec (index : List Vec) (q : Vec) (h : index ≠ []) :
    0 ≤ (nnSearch index q).2 ∧ (nnSearch index q).2 < (index.length : Int) ∧
    (∃ v ∈ index, (nnSearch index q).1 = sqDist q v) ∧
    (∀ v ∈ index, (nnSearch index q).1 ≤ sqDist q v) := by
  cases index with
  | nil => exact absurd rfl h
  | cons v vs =>
    have hs : nnSearch (v :: vs) q = nnGo q (sqDist q v, 0) 1 vs := rfl
    obtain ⟨h1, h2, h3⟩ := nnGo_val q vs (sqDist q v, 0) 1
    have hlen : ((v :: vs).length : Int) = (vs.length : Int) + 1 := by
      simp [List.length_cons]
    refine ⟨?_, ?_, ?_, ?_⟩
    · rw [hs]
      rcases nnGo_idx q vs (sqDist q v, 0) 1 with heq | ⟨hlo, _⟩
      · rw [heq]
      · omega
    · rw [hs, hlen]
      rcases nnGo_idx q vs (sqDist q v, 0) 1 with heq | ⟨_, hhi⟩
      · rw [heq]; positivity
      · omega
    · rw [hs]
      rcases h3 with h3 | ⟨w, hw, hval⟩
      · exact ⟨v, List.mem_cons_self v vs, h3⟩
      · exact ⟨w, List.mem_cons_of_mem v hw, hval⟩
    · intro w hw
      rw [hs]
      rcases List.mem_cons.mp hw with hw0 | hw'
      · rw [hw0]; exact h1
      · exact h2 w hw'

lemma searchFace_name_iff (index : List Vec) (names : List String) (q : Vec) (t : ℚ)
    (hne : index ≠ []) (hlen : names.length = index.length) :
    (searchFace index names q t).1 ≠ none ↔ ∃ v ∈ index, sqDist q v ≤ t := by
  obtain ⟨hlo, hhi, ⟨v0, hv0, hval⟩, hmin⟩ := nnSearch_nonempty_spec index q hne
  have hguard : ¬((nnSearch index q).2 < 0 ∨
      ((names.length : Int) ≤ (nnSearch index q).2)) := by
    push_neg
    constructor
    · omega
    · rw [hlen]; omega
  by_cases ht : (nnSearch index q).1 ≤ t
  · have : searchFace index names q t =
        (some (names.getD (nnSearch index q).2.toNat ""), (nnSearch index q).1) := by
      rw [searchFace, if_neg hguard, if_pos ht]
    rw [this]
    simp only [ne_eq, Option.some_ne_none, not_false_iff, true_iff]
    exact ⟨v0, hv0, by rw [← hval]; exact ht⟩
  · have : searchFace index names q t = (none, (nnSearch index q).1) := by
      rw [searchFace, if_neg hguard, if_neg ht]
    rw [this]
    simp only [ne_eq, not_true, false_iff, not_not]
    intro ⟨w, hw, hwt⟩
    exact ht (le_trans (hmin w hw) hwt)

/-! ## Claim C1 -/

/-- Claim C1 as stated fails at threshold -1: in the gallery holding the
single embedding [-1] with query [1], a comparable entry exists and the
maximum cosine similarity (-1) is greater or equal to the threshold -1,
yet the scan never recognizes it because best_sim is initialised to the
very sentinel -1.0 and the comparison is strict. -/
theorem c1_threshold_at_minus_one_counterexample :
    (∃ s ∈ simsOf [1] [⟨1, some [-1]⟩], (-1 : ℝ) ≤ s) ∧
    ¬ Recognized [⟨1, some [-1]⟩] [1] (-1) := by
  have hcp : compPairs [1] [⟨1, some [-1]⟩] = [((1 : ℤ), cosineSimilarity [1] [-1])] := by
    simp [compPairs, compEmb]
  have hscan : scanEmbeddings [⟨1, some [-1]⟩] [1] = (none, -1) := by
    rw [scanEmbeddings_eq_foldP, hcp, foldP_cons,
      if_neg (by rw [cos_one_negone]; exact lt_irrefl _), foldP_nil]
  constructor
  · exact ⟨cosineSimilarity [1] [-1], by simp [simsOf, hcp], by rw [cos_one_negone]⟩
  · intro hrec
    exact hrec.1 (by rw [hscan])

/-- Claim C1 (amended): the matched-iff-threshold invariant holds in the
correct direction for both matchers, provided the cosine threshold is
strictly above the sentinel -1.0 (at thresholds less or equal to -1 an
entry whose similarity equals -1 can tie the sentinel and is never
selected by the strict comparison): the cosine scan recognizes iff some
comparable entry has similarity at least the threshold, and search_face
over a nonempty L2 index returns a name iff the minimum (squared)
distance is at most the threshold. -/
theorem c1_matched_iff_threshold_amended :
    (∀ (rows : List EmbeddingRow) (q : Vec) (t : ℝ), -1 < t →
      (Recognized rows q t ↔ ∃ s ∈ simsOf q rows, t ≤ s)) ∧
    (∀ (index : List Vec) (names : List String) (q : Vec) (t : ℚ),
      index ≠ [] → names.length = index.length →
      ((searchFace index names q t).1 ≠ none ↔ ∃ v ∈ index, sqDist q v ≤ t)) := by
  constructor
  · intro rows q t ht
    rcases foldP_cases (compPairs q rows) (none, -1) with
      ⟨heq, hall⟩ | ⟨pre, e, s, post, hl, heq, hgt, hpre, hpost⟩
    · have hscan : scanEmbeddings rows q = (none, -1) := by
        rw [scanEmbeddings_eq_foldP, heq]
      constructor
      · intro hrec
        exact absurd (by rw [hscan]) hrec.1
      · rintro ⟨s, hs, hts⟩
        rcases List.mem_map.mp hs with ⟨p, hp, hps⟩
        have := hall p hp
        rw [hps] at this
        exact absurd (le_trans hts this) (not_le.mpr (by simpa using ht))
    · have hscan : scanEmbeddings rows q = (some e, s) := by
        rw [scanEmbeddings_eq_foldP, heq]
      constructor
      · intro hrec
        refine ⟨s, ?_, ?_⟩
        · exact List.mem_map.mpr ⟨(e, s), by rw [hl]; exact List.mem_append_right _ (List.mem_cons_self _ _), rfl⟩
        · have := hrec.2
          rw [hscan] at this
          exact this
      · rintro ⟨s', hs', hts'⟩
        rcases List.mem_map.mp hs' with ⟨p, hp, hps⟩
        have hps' : p.2 ≤ s := by
          rw [hl] at hp
          rcases List.mem_append.mp hp with hp1 | hp2
          · exact le_of_lt (hpre p hp1)
          · rcases List.mem_cons.mp hp2 with hp0 | hp3
            · rw [hp0]
            · exact hpost p hp3
        refine ⟨by rw [hscan]; simp, ?_⟩
        rw [hscan]
        exact le_trans hts' (by rw [← hps]; exact hps')
  · exact fun index names q t hne hlen => searchFace_name_iff index names q t hne hlen

/-- Witness for C1 (amended): a gallery holding the query itself with
threshold one half is recognized, and search_face with a zero-distance
entry under threshold returns its name. -/
theorem c1_matched_iff_threshold_witness :
    Recognized [⟨1, some [1]⟩] [1] (1 / 2) ∧ (searchFace [[0]] ["a"] [0] 1).1 ≠ none := by
  obtain ⟨h1, h2⟩ := c1_matched_iff_threshold_amended
  constructor
  · refine (h1 [⟨1, some [1]⟩] [1] (1 / 2) (by norm_num)).mpr ⟨cosineSimilarity [1] [1], ?_, ?_⟩
    · simp [simsOf, compPairs, compEmb]
    · rw [cos_one_one]; norm_num
  · refine (h2 [[0]] ["a"] [0] 1 (by simp) (by simp)).mpr ⟨[0], by simp, ?_⟩
    norm_num [sqDist]

/-! ## Claim C4 -/

/-- Claim C4 as stated fails: on the zero-norm query [0] against the
gallery entry [1], _cosine_similarity does not raise; it returns the
sentinel -1.0 and the scan returns a perfectly ordinary no-match result,
a silent non-match rather than a fatal input error. -/
theorem c4_zero_norm_counterexample :
    cosineSimilarity [0] [1] = -1 ∧
    scanEmbeddings [⟨1, some [1]⟩] [0] = (none, -1) := by
  have h0 : sumSq ([0] : Vec) = 0 := by norm_num [sumSq, dot]
  have hcos : cosineSimilarity [0] [1] = -1 := cosineSimilarity_zero_left h0
  refine ⟨hcos, ?_⟩
  have hcp : compPairs [0] [⟨1, some [1]⟩] = [((1 : ℤ), cosineSimilarity [0] [1])] := by
    simp [compPairs, compEmb]
  rw [scanEmbeddings_eq_foldP, hcp, foldP_cons,
    if_neg (by rw [hcos]; exact lt_irrefl _), foldP_nil]

/-- Claim C4 (amended): a zero-norm query (or any comparison touching a
zero-norm vector) is not rejected with an error; _cosine_similarity
returns the sentinel -1.0 for every such comparison, and a zero-norm
query therefore makes the whole scan return matched=false with no
identity, silently. -/
theorem c4_zero_norm_silent_nonmatch :
    (∀ (a b : Vec), sumSq a = 0 ∨ sumSq b = 0 → cosineSimilarity a b = -1) ∧
    (∀ (rows : List EmbeddingRow) (q : Vec), sumSq q = 0 →
      scanEmbeddings rows q = (none, -1) ∧ ∀ t, ¬ Recognized rows q t) := by
  constructor
  · intro a b hab
    rcases hab with ha | hb
    · exact cosineSimilarity_zero_left ha
    · exact cosineSimilarity_zero_right hb
  · intro rows q hq
    have hall : ∀ p ∈ compPairs q rows, p.2 = -1 := by
      intro p hp
      rcases mem_compPairs.mp hp with ⟨r, hr, e, he, hpe⟩
      rw [hpe]
      exact cosineSimilarity_zero_left hq
    have hscan : scanEmbeddings rows q = (none, -1) := by
      rw [scanEmbeddings_eq_foldP]
      rcases foldP_cases (compPairs q rows) (none, -1) with
        ⟨heq, _⟩ | ⟨pre, e, s, post, hl, heq, hgt, _, _⟩
      · exact heq
      · exfalso
        have hmem : ((e, s) : Int × ℝ) ∈ compPairs q rows := by
          rw [hl]; exact List.mem_append_right _ (List.mem_cons_self _ _)
        have := hall _ hmem
        simp only at this
        rw [this] at hgt
        exact lt_irrefl _ hgt
    exact ⟨hscan, fun t hrec => hrec.1 (by rw [hscan])⟩

/-- Witness for C4 (amended): the zero vector has zero norm, the
comparison against [2] yields the sentinel, and the scan over the
single-entry gallery [5] silently yields no match. -/
theorem c4_zero_norm_witness :
    cosineSimilarity [0] [2] = -1 ∧ scanEmbeddings [⟨7, some [5]⟩] [0] = (none, -1) := by
  have h := c4_zero_norm_silent_nonmatch
  exact ⟨h.1 [0] [2] (Or.inl (by norm_num [sumSq, dot])),
    (h.2 [⟨7, some [5]⟩] [0] (by norm_num [sumSq, dot])).1⟩

/-! ## Claim C6 -/

/-- Claim C6: if the gallery is empty or every entry is incomparable to
the query (unparsable embedding or different dimension), the scan returns
matched=false with no identity (it is a total function, never an error),
and each incomparable entry is skipped without affecting the running
best. -/
theorem c6_incomparable_gallery_no_match :
    ∀ (rows : List EmbeddingRow) (q : Vec),
      (∀ r ∈ rows, compEmb q r = none) →
      scanEmbeddings rows q = (none, -1) ∧ (∀ t, ¬ Recognized rows q t) ∧
      (∀ (b : Option Int × ℝ) (r : EmbeddingRow), compEmb q r = none → scanStep q b r = b) := by
  intro rows q h
  have hcp : compPairs q rows = [] := by
    refine List.filterMap_eq_nil_iff.mpr ?_
    intro r hr
    rw [h r hr]
    rfl
  have hscan : scanEmbeddings rows q = (none, -1) := by
    rw [scanEmbeddings_eq_foldP, hcp, foldP_nil]
  refine ⟨hscan, fun t hrec => hrec.1 (by rw [hscan]), ?_⟩
  intro b r hr
  simp [scanStep, hr]

/-- Witness for C6: a gallery holding one wrong-dimension entry and one
unparsable entry yields no match against the one-dimensional query. -/
theorem c6_incomparable_gallery_witness :
    scanEmbeddings [⟨1, some [1, 2]⟩, ⟨2, none⟩] [1] = (none, -1) ∧
    ¬ Recognized [⟨1, some [1, 2]⟩, ⟨2, none⟩] [1] (35 / 100) := by
  have h := c6_incomparable_gallery_no_match [⟨1, some [1, 2]⟩, ⟨2, none⟩] [1] (by decide)
  exact ⟨h.1, h.2.1 _⟩

/-! ## Claim C7 -/

/-- Claim C7 as stated fails in the sentinel corner: with query [1] and
a gallery of two entries both embedding [-1], both comparable entries
attain the same best score -1, yet the returned identity is None, not the
first such entry, because the strict comparison against the initial
best_sim of -1.0 never selects either. -/
theorem c7_tie_counterexample :
    simsOf [1] [⟨1, some [-1]⟩, ⟨2, some [-1]⟩] = [-1, -1] ∧
    (scanEmbeddings [⟨1, some [-1]⟩, ⟨2, some [-1]⟩] [1]).1 = none := by
  have hcp : compPairs [1] [⟨1, some [-1]⟩, ⟨2, some [-1]⟩] =
      [((1 : ℤ), cosineSimilarity [1] [-1]), ((2 : ℤ), cosineSimilarity [1] [-1])] := by
    simp [compPairs, compEmb]
  constructor
  · rw [simsOf, hcp, cos_one_negone]
    rfl
  · rw [scanEmbeddings_eq_foldP, hcp, cos_one_negone, foldP_cons,
      if_neg (lt_irrefl _), foldP_cons, if_neg (lt_irrefl _), foldP_nil]

/-- Claim C7 (amended): whenever the scan does return an identity, that
identity is the first comparable gallery entry attaining the best score:
the comparable pairs split around the returned (identity, score) pair
with every earlier comparable entry scoring strictly less and every later
one scoring at most the best (ties after the winner keep the winner). -/
theorem c7_first_best_amended :
    ∀ (rows : List EmbeddingRow) (q : Vec) (eid : Int) (s : ℝ),
      scanEmbeddings rows q = (some eid, s) →
      -1 < s ∧ ∃ pre post, compPairs q rows = pre ++ (eid, s) :: post ∧
        (∀ p ∈ pre, p.2 < s) ∧ (∀ p ∈ post, p.2 ≤ s) := by
  intro rows q eid s h
  rw [scanEmbeddings_eq_foldP] at h
  rcases foldP_cases (compPairs q rows) (none, -1) with
    ⟨heq, _⟩ | ⟨pre, e, s', post, hl, heq, hgt, hpre, hpost⟩
  · rw [heq] at h
    exact absurd h (by simp)
  · rw [heq] at h
    have he : e = eid := Option.some.inj (congrArg Prod.fst h)
    have hs : s' = s := congrArg Prod.snd h
    subst he
    subst hs
    exact ⟨hgt, pre, post, hl, hpre, hpost⟩

/-- Witness for C7 (amended): with two identical gallery entries equal to
the query, the scan returns the first employee and the comparable pairs
decompose around it. -/
theorem c7_first_best_witness :
    (-1 : ℝ) < 1 ∧ ∃ pre post,
      compPairs [1] [⟨1, some [1]⟩, ⟨2, some [1]⟩] = pre ++ ((1 : ℤ), (1 : ℝ)) :: post ∧
      (∀ p ∈ pre, p.2 < 1) ∧ (∀ p ∈ post, p.2 ≤ 1) := by
  have hcp : compPairs [1] [⟨1, some [1]⟩, ⟨2, some [1]⟩] =
      [((1 : ℤ), cosineSimilarity [1] [1]), ((2 : ℤ), cosineSimilarity [1] [1])] := by
    simp [compPairs, compEmb]
  have hscan : scanEmbeddings [⟨1, some [1]⟩, ⟨2, some [1]⟩] [1] = (some 1, 1) := by
    rw [scanEmbeddings_eq_foldP, hcp, cos_one_one, foldP_cons, if_pos (by norm_num),
      foldP_cons, if_neg (lt_irrefl _), foldP_nil]
  exact c7_first_best_amended [⟨1, some [1]⟩, ⟨2, some [1]⟩] [1] 1 1 hscan

/-! ## Claim C10 -/

/-- Claim C10: the similarity placed in the response and in the log row
is None exactly when the best similarity held by the scan is below -0.5;
in particular the genuine best similarity -3/5 of the single entry
[-3, 4] against query [1, 0] is reported as None, indistinguishable from
the None reported when no entry was comparable at all. -/
theorem c10_reported_similarity_none_iff :
    (∀ (rows : List EmbeddingRow) (q : Vec),
      reportedSimilarity rows q = none ↔ bestSim rows q < -(1 / 2)) ∧
    bestSim [⟨1, some [-3, 4]⟩] [1, 0] = -(3 / 5) ∧
    reportedSimilarity [⟨1, some [-3, 4]⟩] [1, 0] = none ∧
    reportedSimilarity [⟨1, none⟩] [1, 0] = none := by
  have hmain : ∀ (rows : List EmbeddingRow) (q : Vec),
      reportedSimilarity rows q = none ↔ bestSim rows q < -(1 / 2) := by
    intro rows q
    by_cases hrows : rows = []
    · subst hrows
      have hscan : scanEmbeddings [] q = (none, -1) := rfl
      rw [reportedSimilarity, if_pos rfl, bestSim, hscan]
      norm_num
    · rw [reportedSimilarity, if_neg hrows, bestSim]
      by_cases hb : -(1 / 2 : ℝ) ≤ (scanEmbeddings rows q).2
      · rw [if_pos hb]
        exact iff_of_false (by simp) (not_lt.mpr hb)
      · rw [if_neg hb]
        exact iff_of_true rfl (not_le.mp hb)
  have hcp : compPairs [1, 0] [⟨1, some [-3, 4]⟩] =
      [((1 : ℤ), cosineSimilarity [1, 0] [-3, 4])] := by
    simp [compPairs, compEmb]
  have hscan : scanEmbeddings [⟨1, some [-3, 4]⟩] [1, 0] = (some 1, -(3 / 5)) := by
    rw [scanEmbeddings_eq_foldP, hcp, cos_e1_neg34, foldP_cons, if_pos (by norm_num), foldP_nil]
  have hb : bestSim [⟨1, some [-3, 4]⟩] [1, 0] = -(3 / 5) := by
    rw [bestSim, hscan]
  refine ⟨hmain, hb, ?_, ?_⟩
  · rw [(hmain _ _), hb]
    norm_num
  · rw [(hmain _ _), bestSim]
    have hcp2 : compPairs [1, 0] [⟨1, none⟩] = [] := by
      simp [compPairs, compEmb]
    rw [scanEmbeddings_eq_foldP, hcp2, foldP_nil]
    norm_num

/-! ## Helper lemmas about the lock state machine -/

lemma updateLockRelease_none {unlock now : ℚ} {s : RecogState}
    (hl : s.locked_name = none) : updateLockRelease unlock now s = s := by
  rw [updateLockRelease, hl]

lemma updateLockRelease_some {unlock now : ℚ} {s : RecogState} {L : String}
    (hl : s.locked_name = some L) :
    updateLockRelease unlock now s =
      if s.recognized = true ∧ s.name = L then { s with locked_last_seen_ts := s.last_seen_ts }
      else if unlock ≤ now - s.locked_last_seen_ts then
        { s with locked_name := none, locked_last_seen_ts := 0 }
      else s := by
  rw [updateLockRelease, hl]

lemma frameRecv_some (th unlock : ℚ) (s : RecogState) (n : String) (d now : ℚ) :
    frameRecv th unlock s (some (n, d)) now =
      updateLockRelease unlock now
        { s with name := n, dist := d, recognized := decide (d ≤ th), last_seen_ts := now } := rfl

lemma frameRecv_none (th unlock : ℚ) (s : RecogState) (now : ℚ) :
    frameRecv th unlock s none now =
      updateLockRelease unlock now
        { s with name := "Unknown", dist := 999, recognized := false } := rfl

lemma canCommit_none {s : RecogState} (hl : s.locked_name = none) (n : String) :
    canCommit s n = true := by
  rw [canCommit, hl]

lemma canCommit_some {s : RecogState} {L : String} (hl : s.locked_name = some L) (n : String) :
    canCommit s n = decide (n ≠ L) := by
  rw [canCommit, hl]

/-- If the processor cannot commit its current name or the snapshot is not
an eligible recognition, the auto-commit block is a no-op without error. -/
lemma uiTick_noop {unlock : ℚ} {dbOn : Bool} {p : RecogState} {sess : SessionState}
    {now : ℚ} {ok : Bool}
    (h : ¬(p.recognized = true ∧ p.name ≠ "Unknown") ∨
      ¬((now - p.last_seen_ts ≤ 2) ∧ canCommit p p.name = true ∧
        (1 ≤ now - sess.last_auto_commit_ts) ∧
        ¬(sess.last_auto_commit_name = p.name ∧ now - sess.last_auto_commit_ts < unlock))) :
    uiTick unlock dbOn p sess now ok = ⟨p, sess, [], false⟩ := by
  rw [uiTick]
  rcases h with h | h
  · rw [if_neg h]
  · by_cases h1 : p.recognized = true ∧ p.name ≠ "Unknown"
    · rw [if_pos h1, if_neg h]
    · rw [if_neg h1]

/-- A successful eligible commit: the auto-commit block locks the current
name, stamps the session bookkeeping and appends exactly one event. -/
lemma uiTick_commit {unlock : ℚ} {p : RecogState} {sess : SessionState} {now : ℚ}
    (h1 : p.recognized = true) (h2 : p.name ≠ "Unknown")
    (h3 : now - p.last_seen_ts ≤ 2) (h4 : canCommit p p.name = true)
    (h5 : 1 ≤ now - sess.last_auto_commit_ts)
    (h6 : ¬(sess.last_auto_commit_name = p.name ∧ now - sess.last_auto_commit_ts < unlock)) :
    uiTick unlock true p sess now true =
      ⟨markCommitted p p.name,
       { sess with last_auto_commit_ts := now, last_auto_commit_name := p.name },
       [⟨p.name, sess.mode, now⟩], false⟩ := by
  rw [uiTick, if_pos ⟨h1, h2⟩, if_pos ⟨h3, h4, h5, h6⟩, if_neg (by simp), if_pos rfl]

/-- A failed append on an eligible commit: the block changes nothing and
surfaces the error. -/
lemma uiTick_commit_fail {unlock : ℚ} {p : RecogState} {sess : SessionState} {now : ℚ}
    (h1 : p.recognized = true) (h2 : p.name ≠ "Unknown")
    (h3 : now - p.last_seen_ts ≤ 2) (h4 : canCommit p p.name = true)
    (h5 : 1 ≤ now - sess.last_auto_commit_ts)
    (h6 : ¬(sess.last_auto_commit_name = p.name ∧ now - sess.last_auto_commit_ts < unlock)) :
    uiTick unlock true p sess now false = ⟨p, sess, [], true⟩ := by
  rw [uiTick, if_pos ⟨h1, h2⟩, if_pos ⟨h3, h4, h5, h6⟩, if_neg (by simp), if_neg (by simp)]

/-- A tick whose frame recognizes the currently locked identity: the lock
last-seen stamp is refreshed to the tick time and the auto-commit block
does nothing (can_commit refuses the locked name). -/
lemma tick_locked_same (th unlock : ℚ) (dbOn : Bool) {st : RecogState × SessionState}
    {L : String} {d : ℚ} {inp : TickInput}
    (hres : inp.result = some (L, d)) (hlock : st.1.locked_name = some L) (hd : d ≤ th) :
    fullTick th unlock dbOn st inp = ((seenState st.1 L d inp.now, st.2), []) := by
  have hdec : decide (d ≤ th) = true := decide_eq_true hd
  have hs1 : frameRecv th unlock st.1 inp.result inp.now = seenState st.1 L d inp.now := by
    rw [hres, frameRecv_some, hdec]
    show updateLockRelease unlock inp.now (recogState st.1 L d inp.now) = seenState st.1 L d inp.now
    rw [updateLockRelease_some
        (show (recogState st.1 L d inp.now).locked_name = some L from hlock),
      if_pos ⟨rfl, rfl⟩]
    rfl
  have hui : uiTick unlock dbOn (seenState st.1 L d inp.now) st.2 inp.now inp.dbOk =
      ⟨seenState st.1 L d inp.now, st.2, [], false⟩ := by
    by_cases hLU : L = "Unknown"
    · exact uiTick_noop (Or.inl (by simp [seenState, hLU]))
    · refine uiTick_noop (Or.inr ?_)
      have hcc : canCommit (seenState st.1 L d inp.now) L = false := by
        rw [canCommit_some (show (seenState st.1 L d inp.now).locked_name = some L from hlock)]
        simp
      intro hcond
      rw [show (seenState st.1 L d inp.now).name = L from rfl, hcc] at hcond
      exact absurd hcond.2.1 (by simp)
  simp only [fullTick]
  rw [hs1, hui]

lemma runTicks_cons (th unlock : ℚ) (dbOn : Bool) (st : RecogState × SessionState)
    (i : TickInput) (is : List TickInput) :
    runTicks th unlock dbOn st (i :: is) =
      ((runTicks th unlock dbOn (fullTick th unlock dbOn st i).1 is).1,
       (fullTick th unlock dbOn st i).2 ++
         (runTicks th unlock dbOn (fullTick th unlock dbOn st i).1 is).2) := rfl

/-- A run of ticks that all recognize the locked identity emits no event,
keeps the lock and leaves the session bookkeeping untouched. -/
lemma runTicks_locked_same (th unlock : ℚ) (dbOn : Bool) {L : String} :
    ∀ (inputs : List TickInput) (st : RecogState × SessionState),
      st.1.locked_name = some L →
      (∀ i ∈ inputs, ∃ d, i.result = some (L, d) ∧ d ≤ th) →
      (runTicks th unlock dbOn st inputs).2 = [] ∧
      (runTicks th unlock dbOn st inputs).1.1.locked_name = some L ∧
      (runTicks th unlock dbOn st inputs).1.2 = st.2 := by
  intro inputs
  induction inputs with
  | nil => intro st hlock _; exact ⟨rfl, hlock, rfl⟩
  | cons i is ih =>
    intro st hlock hin
    obtain ⟨d, hres, hd⟩ := hin i (List.mem_cons_self i is)
    have ht := tick_locked_same th unlock dbOn hres hlock hd
    have hlock2 : (seenState st.1 L d i.now).locked_name = some L := hlock
    obtain ⟨he, hl2, hs2⟩ := ih (seenState st.1 L d i.now, st.2) hlock2
      (fun j hj => hin j (List.mem_cons_of_mem i hj))
    rw [runTicks_cons, ht]
    exact ⟨by simp [he], hl2, hs2⟩

/-- A tick that recognizes an eligible new person while no lock is held
and whose append succeeds: exactly one event is emitted and the lock is
created on that person. -/
lemma tick_first_commit (th unlock : ℚ) {st : RecogState × SessionState} {L : String}
    {d0 : ℚ} (inp : TickInput)
    (hres : inp.result = some (L, d0)) (hok : inp.dbOk = true)
    (hlock : st.1.locked_name = none) (hL : L ≠ "Unknown") (hd : d0 ≤ th)
    (hspam : 1 ≤ inp.now - st.2.last_auto_commit_ts)
    (hsame : ¬(st.2.last_auto_commit_name = L ∧ inp.now - st.2.last_auto_commit_ts < unlock)) :
    fullTick th unlock true st inp =
      ((markCommitted (recogState st.1 L d0 inp.now) L,
        { st.2 with last_auto_commit_ts := inp.now, last_auto_commit_name := L }),
       [⟨L, st.2.mode, inp.now⟩]) := by
  have hdec : decide (d0 ≤ th) = true := decide_eq_true hd
  have hs1 : frameRecv th unlock st.1 inp.result inp.now = recogState st.1 L d0 inp.now := by
    rw [hres, frameRecv_some, hdec]
    show updateLockRelease unlock inp.now (recogState st.1 L d0 inp.now) =
      recogState st.1 L d0 inp.now
    exact updateLockRelease_none
      (show (recogState st.1 L d0 inp.now).locked_name = none from hlock)
  have hui : uiTick unlock true (recogState st.1 L d0 inp.now) st.2 inp.now true =
      ⟨markCommitted (recogState st.1 L d0 inp.now) L,
       { st.2 with last_auto_commit_ts := inp.now, last_auto_commit_name := L },
       [⟨L, st.2.mode, inp.now⟩], false⟩ := by
    exact uiTick_commit rfl hL (by show inp.now - inp.now ≤ 2; simp)
      (canCommit_none (show (recogState st.1 L d0 inp.now).locked_name = none from hlock) _)
      hspam hsame
  simp only [fullTick]
  rw [hok, hs1, hui]

/-! ## Claim C2 -/

/-- Claim C2: while an identity is locked, a tick whose match result is
that locked identity refreshes the lock's last-seen stamp to the tick
time and emits no event; consequently, starting unlocked, an eligible
commit followed by any number of ticks matching the locked identity emits
exactly one attendance event (the one that created the lock) and keeps
the lock. -/
theorem c2_lock_refresh_no_duplicate :
    (∀ (th unlock : ℚ) (dbOn : Bool) (st : RecogState × SessionState) (L : String) (d : ℚ)
       (inp : TickInput),
      st.1.locked_name = some L → inp.result = some (L, d) → d ≤ th →
      (fullTick th unlock dbOn st inp).2 = [] ∧
      (fullTick th unlock dbOn st inp).1.1.locked_name = some L ∧
      (fullTick th unlock dbOn st inp).1.1.locked_last_seen_ts = inp.now) ∧
    (∀ (th unlock : ℚ) (st : RecogState × SessionState) (L : String) (d0 now0 : ℚ)
       (inputs : List TickInput),
      st.1.locked_name = none → L ≠ "Unknown" → d0 ≤ th →
      1 ≤ now0 - st.2.last_auto_commit_ts →
      ¬(st.2.last_auto_commit_name = L ∧ now0 - st.2.last_auto_commit_ts < unlock) →
      (∀ i ∈ inputs, ∃ d, i.result = some (L, d) ∧ d ≤ th) →
      (runTicks th unlock true st (⟨some (L, d0), now0, true⟩ :: inputs)).2.length = 1 ∧
      (runTicks th unlock true st (⟨some (L, d0), now0, true⟩ :: inputs)).1.1.locked_name =
        some L) := by
  constructor
  · intro th unlock dbOn st L d inp hlock hres hd
    rw [tick_locked_same th unlock dbOn hres hlock hd]
    exact ⟨rfl, hlock, rfl⟩
  · intro th unlock st L d0 now0 inputs hlock hL hd hspam hsame hin
    have hfirst := tick_first_commit th unlock ⟨some (L, d0), now0, true⟩
      rfl rfl hlock hL hd hspam hsame
    have hlock2 : (markCommitted (recogState st.1 L d0 now0) L).locked_name = some L := rfl
    obtain ⟨he, hl2, hs2⟩ := runTicks_locked_same th unlock true
      inputs (markCommitted (recogState st.1 L d0 now0) L,
        { st.2 with last_auto_commit_ts := now0, last_auto_commit_name := L }) hlock2 hin
    rw [runTicks_cons, hfirst]
    exact ⟨by simp [he], hl2⟩

/-- Witness for C2: an unlocked session commits alice at time 10, then a
second tick matching alice at time 11 emits nothing and keeps the lock;
and a single tick matching an already locked alice emits nothing. -/
theorem c2_lock_refresh_witness :
    (runTicks 1 5 true ({}, {})
      (⟨some ("alice", 1 / 2), 10, true⟩ :: [⟨some ("alice", 1 / 2), 11, true⟩])).2.length = 1 ∧
    (runTicks 1 5 true ({}, {})
      (⟨some ("alice", 1 / 2), 10, true⟩ :: [⟨some ("alice", 1 / 2), 11, true⟩])).1.1.locked_name =
      some "alice" ∧
    (fullTick 1 5 true ({ locked_name := some "alice" }, {})
      ⟨some ("alice", 1 / 2), 3, true⟩).2 = [] := by
  obtain ⟨h1, h2⟩ := c2_lock_refresh_no_duplicate.2 1 5 ({}, {}) "alice" (1 / 2) 10
    [⟨some ("alice", 1 / 2), 11, true⟩] rfl (by decide) (by norm_num)
    (by show (1 : ℚ) ≤ 10 - 0; norm_num)
    (by rintro ⟨h, _⟩; exact absurd h (by decide))
    (by rintro i hi
        rcases List.mem_singleton.mp hi with rfl
        exact ⟨1 / 2, rfl, by norm_num⟩)
  exact ⟨h1, h2,
    (c2_lock_refresh_no_duplicate.1 1 5 true ({ locked_name := some "alice" }, {}) "alice"
      (1 / 2) ⟨some ("alice", 1 / 2), 3, true⟩ rfl rfl (by norm_num)).1⟩

/-- The lock-name projection after updateLockRelease when no lock was
held. -/
lemma updateLockRelease_locked_none {unlock now : ℚ} {s : RecogState}
    (h : s.locked_name = none) : (updateLockRelease unlock now s).locked_name = none := by
  rw [updateLockRelease_none h]
  exact h

/-- updateLockRelease when the current frame did not recognize the locked
person: either the release fires or the lock survives with its stamp
untouched because the deadline has not passed. -/
lemma updateLockRelease_absent {unlock now : ℚ} {s : RecogState} {L : String}
    (hl : s.locked_name = some L) (hno : ¬(s.recognized = true ∧ s.name = L)) :
    (updateLockRelease unlock now s).locked_name = none ∨
    ((updateLockRelease unlock now s).locked_name = some L ∧
     (updateLockRelease unlock now s).locked_last_seen_ts = s.locked_last_seen_ts ∧
     ¬ unlock ≤ now - s.locked_last_seen_ts) := by
  rw [updateLockRelease_some hl, if_neg hno]
  by_cases hrel : unlock ≤ now - s.locked_last_seen_ts
  · rw [if_pos hrel]
    exact Or.inl rfl
  · rw [if_neg hrel]
    exact Or.inr ⟨hl, rfl, hrel⟩

/-- Frame processing never creates a lock: from an unlocked processor
state the lock stays clear (only mark_committed, in the UI thread, sets
it). -/
lemma frameRecv_unlocked {th unlock : ℚ} {s : RecogState} {r : Option (String × ℚ)} {t : ℚ}
    (hlock : s.locked_name = none) : (frameRecv th unlock s r t).locked_name = none := by
  cases r with
  | none => exact updateLockRelease_locked_none hlock
  | some nd =>
    obtain ⟨n, d⟩ := nd
    exact updateLockRelease_locked_none hlock

/-- A frame whose result is not the locked identity never refreshes the
lock stamp: either the release fired (lock cleared) or the lock survives
with its stamp untouched and the release deadline not yet reached. -/
lemma frameRecv_absent (th unlock : ℚ) {s : RecogState} {L : String}
    {r : Option (String × ℚ)} {t : ℚ}
    (hlock : s.locked_name = some L) (hr : Option.map Prod.fst r ≠ some L) :
    (frameRecv th unlock s r t).locked_name = none ∨
    ((frameRecv th unlock s r t).locked_name = some L ∧
     (frameRecv th unlock s r t).locked_last_seen_ts = s.locked_last_seen_ts ∧
     ¬ unlock ≤ t - s.locked_last_seen_ts) := by
  cases r with
  | none =>
    exact updateLockRelease_absent hlock (by rintro ⟨hc, -⟩; simp at hc)
  | some nd =>
    obtain ⟨n, d⟩ := nd
    have hnL : n ≠ L := by
      intro h
      exact hr (by rw [Option.map_some']; exact congrArg some h)
    exact updateLockRelease_absent hlock (by rintro ⟨-, hc⟩; exact hnL hc)

lemma runFrames_unlocked {th unlock : ℚ} :
    ∀ (frames : List (Option (String × ℚ) × ℚ)) (s : RecogState),
      s.locked_name = none → (runFrames th unlock s frames).locked_name = none := by
  intro frames
  induction frames with
  | nil => intro s h; exact h
  | cons f rest ih =>
    intro s h
    obtain ⟨r, t⟩ := f
    exact ih (frameRecv th unlock s r t) (frameRecv_unlocked h)

/-- Over any run of frames none of which reports the locked identity as
best match, the lock either gets released or survives with its original
stamp. -/
lemma runFrames_absent {th unlock : ℚ} {L : String} :
    ∀ (frames : List (Option (String × ℚ) × ℚ)) (s : RecogState),
      s.locked_name = some L →
      (∀ f ∈ frames, Option.map Prod.fst f.1 ≠ some L) →
      (runFrames th unlock s frames).locked_name = none ∨
      ((runFrames th unlock s frames).locked_name = some L ∧
       (runFrames th unlock s frames).locked_last_seen_ts = s.locked_last_seen_ts) := by
  intro frames
  induction frames with
  | nil => intro s hlock _; exact Or.inr ⟨hlock, rfl⟩
  | cons f rest ih =>
    intro s hlock hfr
    obtain ⟨r, t⟩ := f
    have hr : Option.map Prod.fst r ≠ some L := hfr (r, t) (List.mem_cons_self _ _)
    rcases frameRecv_absent th unlock (t := t) hlock hr with
      hnone | ⟨hl, hlls, _⟩
    · exact Or.inl (runFrames_unlocked rest _ hnone)
    · rcases ih (frameRecv th unlock s r t)
        hl (fun g hg => hfr g (List.mem_cons_of_mem _ hg)) with hnone | ⟨hl2, hlls2⟩
      · exact Or.inl hnone
      · exact Or.inr ⟨hl2, hlls2.trans hlls⟩

/-! ## Claim C3 -/

/-- Claim C3: from any locked processor state, if no frame in the interim
reports the locked identity as the best match (other identities may be
matched freely), and at the next processed frame the lock stamp is at
least unlock_duration old, then after that frame the lock is released,
the state machine being back to UNLOCKED. -/
theorem c3_unlock_after_absence :
    ∀ (th unlock : ℚ) (s : RecogState) (L : String)
      (frames : List (Option (String × ℚ) × ℚ)) (rfin : Option (String × ℚ)) (T : ℚ),
      s.locked_name = some L →
      (∀ f ∈ frames, Option.map Prod.fst f.1 ≠ some L) →
      Option.map Prod.fst rfin ≠ some L →
      unlock ≤ T - s.locked_last_seen_ts →
      (frameRecv th unlock (runFrames th unlock s frames) rfin T).locked_name = none := by
  intro th unlock s L frames rfin T hlock hfr hrfin hT
  rcases runFrames_absent frames s hlock hfr with hnone | ⟨hl, hlls⟩
  · exact frameRecv_unlocked hnone
  · rcases frameRecv_absent th unlock (t := T) (r := rfin) hl hrfin with
      hnone | ⟨_, _, hnrel⟩
    · exact hnone
    · exact absurd (by rw [hlls]; exact hT) hnrel

/-- Witness for C3: alice is locked with stamp 0, bob is matched at time
1, no face at time 5 with unlock_duration 5; the lock is released. -/
theorem c3_unlock_after_absence_witness :
    (frameRecv 1 5 (runFrames 1 5 { locked_name := some "alice" }
      [(some ("bob", 1 / 2), 1)]) none 5).locked_name = none := by
  exact c3_unlock_after_absence 1 5 { locked_name := some "alice" } "alice"
    [(some ("bob", 1 / 2), 1)] none 5 rfl
    (by rintro f hf
        rcases List.mem_singleton.mp hf with rfl
        decide)
    (by decide)
    (by show (5 : ℚ) ≤ 5 - 0; norm_num)

/-! ## Claim C5 -/

/-- Claim C5 as stated fails: on an eligible commit whose append fails
(dbOk false), the session does NOT transition to LOCKED(identity) — the
lock stays clear, unlike the successful-append run of the very same
state, which locks alice. -/
theorem c5_failed_append_counterexample :
    (uiTick 5 true (recogState {} "alice" (1 / 2) 10) {} 10 false).proc.locked_name = none ∧
    (uiTick 5 true (recogState {} "alice" (1 / 2) 10) {} 10 true).proc.locked_name =
      some "alice" := by
  have h1 : (recogState {} "alice" (1 / 2) 10).recognized = true := rfl
  have h2 : (recogState ({} : RecogState) "alice" (1 / 2) 10).name ≠ "Unknown" := by decide
  have h3 : (10 : ℚ) - (recogState {} "alice" (1 / 2) 10).last_seen_ts ≤ 2 := by
    show (10 : ℚ) - 10 ≤ 2
    norm_num
  have h4 : canCommit (recogState {} "alice" (1 / 2) 10)
      (recogState {} "alice" (1 / 2) 10).name = true := canCommit_none rfl _
  have h5 : (1 : ℚ) ≤ 10 - ({} : SessionState).last_auto_commit_ts := by
    show (1 : ℚ) ≤ 10 - 0
    norm_num
  have h6 : ¬(({} : SessionState).last_auto_commit_name =
      (recogState {} "alice" (1 / 2) 10).name ∧
      (10 : ℚ) - ({} : SessionState).last_auto_commit_ts < 5) := by
    rintro ⟨hx, -⟩
    exact absurd hx (by decide)
  constructor
  · rw [uiTick_commit_fail h1 h2 h3 h4 h5 h6]
    rfl
  · rw [uiTick_commit h1 h2 h3 h4 h5 h6]
    rfl

/-- Claim C5 (amended): when the log append of an eligible commit fails,
the lock/match decision IS discarded rather than kept: mark_committed is
not called, neither the lock nor the session bookkeeping changes, no
event is appended and only the write error is surfaced (the commit will
be retried on later ticks); only a successful append sets the lock. -/
theorem c5_failed_append_no_lock :
    ∀ (unlock : ℚ) (p : RecogState) (sess : SessionState) (now : ℚ),
      p.recognized = true → p.name ≠ "Unknown" → now - p.last_seen_ts ≤ 2 →
      canCommit p p.name = true → 1 ≤ now - sess.last_auto_commit_ts →
      ¬(sess.last_auto_commit_name = p.name ∧ now - sess.last_auto_commit_ts < unlock) →
      uiTick unlock true p sess now false = ⟨p, sess, [], true⟩ ∧
      (uiTick unlock true p sess now true).proc.locked_name = some p.name := by
  intro unlock p sess now h1 h2 h3 h4 h5 h6
  refine ⟨uiTick_commit_fail h1 h2 h3 h4 h5 h6, ?_⟩
  rw [uiTick_commit h1 h2 h3 h4 h5 h6]
  rfl

/-- Witness for C5 (amended): an eligible commit for bob at time 20 whose
append fails leaves the whole state untouched and surfaces the error. -/
theorem c5_failed_append_witness :
    uiTick 5 true (recogState {} "bob" (1 / 2) 20) {} 20 false =
      ⟨recogState {} "bob" (1 / 2) 20, {}, [], true⟩ := by
  exact (c5_failed_append_no_lock 5 (recogState {} "bob" (1 / 2) 20) {} 20 rfl (by decide)
    (by show (20 : ℚ) - 20 ≤ 2; norm_num) (canCommit_none rfl _)
    (by show (1 : ℚ) ≤ 20 - 0; norm_num)
    (by rintro ⟨hx, -⟩; exact absurd hx (by decide))).1

/-! ## Claim C8 -/

/-- Claim C8: a successful commit stamps the session with its time; any
second tick (any identity, any snapshot, any append outcome) less than
the one-second minimum interval later is suppressed with no state change,
and once the interval has elapsed a second eligible commit (even of a
different identity) goes through. -/
theorem c8_min_commit_interval :
    ∀ (unlock : ℚ) (p : RecogState) (sess : SessionState) (now0 : ℚ),
      p.recognized = true → p.name ≠ "Unknown" → now0 - p.last_seen_ts ≤ 2 →
      canCommit p p.name = true → 1 ≤ now0 - sess.last_auto_commit_ts →
      ¬(sess.last_auto_commit_name = p.name ∧ now0 - sess.last_auto_commit_ts < unlock) →
      (uiTick unlock true p sess now0 true).events.length = 1 ∧
      (uiTick unlock true p sess now0 true).sess.last_auto_commit_ts = now0 ∧
      (∀ (q : RecogState) (now1 : ℚ) (ok : Bool),
        now1 - now0 < 1 →
        uiTick unlock true q (uiTick unlock true p sess now0 true).sess now1 ok =
          ⟨q, (uiTick unlock true p sess now0 true).sess, [], false⟩) ∧
      (∀ (q : RecogState) (now1 : ℚ),
        q.recognized = true → q.name ≠ "Unknown" → now1 - q.last_seen_ts ≤ 2 →
        canCommit q q.name = true →
        ¬(p.name = q.name ∧ now1 - now0 < unlock) →
        1 ≤ now1 - now0 →
        (uiTick unlock true q (uiTick unlock true p sess now0 true).sess now1 true).events.length
          = 1) := by
  intro unlock p sess now0 h1 h2 h3 h4 h5 h6
  have hcommit := uiTick_commit h1 h2 h3 h4 h5 h6
  rw [hcommit]
  refine ⟨rfl, rfl, ?_, ?_⟩
  · intro q now1 ok hlt
    refine uiTick_noop (Or.inr ?_)
    rintro ⟨-, -, hsp, -⟩
    exact absurd hsp (not_le.mpr hlt)
  · intro q now1 hq1 hq2 hq3 hq4 hq6 hq5
    rw [uiTick_commit hq1 hq2 hq3 hq4 hq5 hq6]
    rfl

/-- Witness for C8: alice commits at time 10; bob, though eligible,
is suppressed half a second later. -/
theorem c8_min_commit_interval_witness :
    (uiTick 5 true (recogState {} "alice" (1 / 2) 10) {} 10 true).events.length = 1 ∧
    uiTick 5 true (recogState {} "bob" (1 / 2) (21 / 2))
      (uiTick 5 true (recogState {} "alice" (1 / 2) 10) {} 10 true).sess (21 / 2) true =
      ⟨recogState {} "bob" (1 / 2) (21 / 2),
       (uiTick 5 true (recogState {} "alice" (1 / 2) 10) {} 10 true).sess, [], false⟩ := by
  have h := c8_min_commit_interval 5 (recogState {} "alice" (1 / 2) 10) {} 10 rfl (by decide)
    (by show (10 : ℚ) - 10 ≤ 2; norm_num) (canCommit_none rfl _)
    (by show (1 : ℚ) ≤ 10 - 0; norm_num)
    (by rintro ⟨hx, -⟩; exact absurd hx (by decide))
  exact ⟨h.1, h.2.2.1 (recogState {} "bob" (1 / 2) (21 / 2)) (21 / 2) true (by norm_num)⟩

/-! ## Claim C9 -/

/-- The event type attached to the (n+1)-st successful scan of a run with
no reset, starting from counter value c, is the parity type of c + n + 1. -/
lemma successEventTypes_get :
    ∀ (tr : List TkEvent), TkEvent.resetCounter ∉ tr → ∀ (c n : ℕ)
      (h : n < (successEventTypes c tr).length),
      (successEventTypes c tr).get ⟨n, h⟩ = nextEventTypeByCount (c + n) := by
  intro tr
  induction tr with
  | nil =>
    intro _ c n h
    simp [successEventTypes] at h
  | cons e rest ih =>
    intro hnr c n h
    cases e with
    | resetCounter => exact absurd (List.mem_cons_self _ _) hnr
    | scan success =>
      have hnr' : TkEvent.resetCounter ∉ rest := fun hm => hnr (List.mem_cons_of_mem _ hm)
      cases success with
      | false => exact ih hnr' c n h
      | true =>
        cases n with
        | zero => rfl
        | succ m =>
          have h' : m < (successEventTypes (c + 1) rest).length := Nat.lt_of_succ_lt_succ h
          calc (successEventTypes c (TkEvent.scan true :: rest)).get ⟨m + 1, h⟩
              = (successEventTypes (c + 1) rest).get ⟨m, h'⟩ := rfl
            _ = nextEventTypeByCount (c + 1 + m) := ih hnr' (c + 1) m h'
            _ = nextEventTypeByCount (c + (m + 1)) := by
                exact congrArg nextEventTypeByCount (by omega)

/-- Claim C9: in the parity-toggling variant, within a session segment
containing no operator reset, the Nth successful recognition is issued
with event type CHECK_IN when N is odd and CHECK_OUT when N is even (the
counter advancing only on successful recognitions). -/
theorem c9_parity_toggling :
    ∀ (tr : List TkEvent), TkEvent.resetCounter ∉ tr →
      ∀ (n : ℕ) (h : n < (successEventTypes 0 tr).length),
        (successEventTypes 0 tr).get ⟨n, h⟩ =
          if (n + 1) % 2 = 1 then "CHECK_IN" else "CHECK_OUT" := by
  intro tr hnr n h
  rw [successEventTypes_get tr hnr 0 n h, Nat.zero_add, nextEventTypeByCount]

/-- Witness for C9: with successes at scans one and three of a
success-failure-success run, the second successful recognition (index 1)
is a CHECK_OUT. -/
theorem c9_parity_toggling_witness :
    (successEventTypes 0 [TkEvent.scan true, TkEvent.scan false, TkEvent.scan true]).get
      ⟨1, by decide⟩ = "CHECK_OUT" := by
  exact (c9_parity_toggling [TkEvent.scan true, TkEvent.scan false, TkEvent.scan true]
    (by decide) 1 (by decide)).trans (by rfl)

end FaceAttendance
